import Mathlib

/-!
# Verification of the multi-file code editor's persistence and tab-session model

Shallow embedding of `src/components/CodeEditor.tsx` (the only source file with
logic; `App.tsx` and `Footer.tsx` are static markup).  Asynchronous IndexedDB
operations are flattened to sequential state passing, matching the component's
sequential `await` structure; the IndexedDB handle `db` is modelled as always
connected (the post-initialization state in which every claim lives).  JavaScript
`undefined`/missing lookups become `Option`, and JavaScript truthiness of
strings (`"" || x`) is modelled explicitly.
-/

namespace CodeEditor

/-- The `File` record type of `CodeEditor.tsx`.  `position` and `tabIndex` are
declared in the source but never written; `lastActive` is set by `debounceSave`. -/
structure File where
  id : String
  name : String
  content : String
  language : String
  position : Option Nat := none
  tabIndex : Option Nat := none
  lastActive : Option Bool := none
deriving DecidableEq

/-- The `FileMeta` record (`id: "fileMeta"` key field omitted — it is the
constant key of the singleton metadata record). -/
structure FileMeta where
  activeFileId : String
  history : List String
  fileOrder : List String
deriving DecidableEq

/-- The IndexedDB database: the `files` object store (keyed by `id`) and the
`fileMeta` object store holding the singleton metadata record. -/
structure Store where
  files : List File
  meta : Option FileMeta
deriving DecidableEq

/-- `store.get(fileId)` on the files object store. -/
def getFile (st : Store) (fileId : String) : Option File :=
  st.files.find? (fun f => f.id = fileId)

/-- `store.put(file)` (`saveFileToDB`): replace the record with the same key,
or add the record if the key is fresh. -/
def putFile (st : Store) (f : File) : Store :=
  if st.files.any (fun g => g.id = f.id) then
    { st with files := st.files.map (fun g => if g.id = f.id then f else g) }
  else
    { st with files := st.files ++ [f] }

/-- `store.delete(fileId)` on the files object store. -/
def deleteStoreFile (st : Store) (fileId : String) : Store :=
  { st with files := st.files.filter (fun f => f.id != fileId) }

/-- `saveMetaToDB`: put of the singleton metadata record. -/
def putMeta (st : Store) (m : FileMeta) : Store :=
  { st with meta := some m }

/-- `LANGUAGE_MAP` lookup. -/
def languageMap : String → Option String
  | "js" => some "javascript"
  | "ts" => some "typescript"
  | "html" => some "html"
  | "css" => some "css"
  | "json" => some "json"
  | _ => none

/-- `PRETTIER_PARSER_MAP` lookup. -/
def prettierParserMap : String → Option String
  | "js" => some "babel"
  | "ts" => some "typescript"
  | "html" => some "html"
  | "css" => some "css"
  | "json" => some "json"
  | _ => none

/-- `fileName.split(".")` over the character list: splitting on `'.'` always
yields at least one piece, and a trailing dot yields a final empty piece. -/
def splitDot : List Char → List (List Char)
  | [] => [[]]
  | c :: cs =>
      if c = '.' then [] :: splitDot cs
      else
        match splitDot cs with
        | [] => [[c]]
        | p :: ps => (c :: p) :: ps

/-- `getFileExtension`: `fileName.split(".").pop()?.toLowerCase() || "js"`.
`split` always yields at least one piece, and an empty last piece is falsy. -/
def getFileExtension (fileName : String) : String :=
  let ext := String.mk (((splitDot fileName.data).getLast?.getD []).map Char.toLower)
  if ext = "" then "js" else ext

/-- `createNewFile`: empty content, language from the extension via
`LANGUAGE_MAP`, defaulting to `"javascript"`. -/
def createNewFile (fileName : String) : File :=
  { id := fileName
    name := fileName
    content := ""
    language := (languageMap (getFileExtension fileName)).getD "javascript" }

/-- The React component state plus the user-visible channels: `files` and
`activeFileId` are the `useState` values, `store` the IndexedDB contents,
`pendingSave` the payload of the live debounce timer (if any), `editorContent`
what the Monaco model currently shows, `alerts` the `alert(...)` messages
raised so far.  `corrupt` flags the states in which the JavaScript original
puts an `undefined` hole into the `files` array (untypable here); no claim
concerns those states. -/
structure EditorState where
  files : List File
  activeFileId : String
  store : Store
  pendingSave : Option File
  editorContent : Option String
  alerts : List String
  corrupt : Bool
deriving DecidableEq

/-- Derived `activeFile = files.find(file => file.id === activeFileId)`. -/
def activeFile (s : EditorState) : Option File :=
  s.files.find? (fun f => f.id = s.activeFileId)

/-- Persisted metadata history, `meta?.history || []`. -/
def metaHistory (s : EditorState) : List String :=
  (s.store.meta.map (·.history)).getD []

/-- Persisted metadata file order, `meta?.fileOrder || []`. -/
def metaFileOrder (s : EditorState) : List String :=
  (s.store.meta.map (·.fileOrder)).getD []

/-- JavaScript indexing `l[i]` with a possibly negative index: `undefined`
out of range. -/
def jsGetI (l : List String) (i : Int) : Option String :=
  if i < 0 then none else l[i.toNat]?

/-- JavaScript `a || b` on an optional string: an absent or empty string is
falsy. -/
def jsOr (a b : Option String) : Option String :=
  match a with
  | some s => if s = "" then b else some s
  | none => b

/-- The `while (newHistory.length > cap) newHistory.shift()` loop: drop the
excess from the front. -/
def trimTo (cap : Nat) (l : List String) : List String :=
  l.drop (l.length - cap)

/-- `handleEditorChange(value)`: no-op when there is no active file or the
value is `undefined`; otherwise replace the active record's content in memory.
It does not touch the store, the debounce timer, or the Monaco model. -/
def handleEditorChange (value : Option String) (s : EditorState) : EditorState :=
  match value, activeFile s with
  | some v, some _ =>
      { s with files := s.files.map (fun f =>
          if f.id = s.activeFileId then { f with content := v } else f) }
  | _, _ => s

/-- `debounceSave(content)`: clear the previous timer and arm a new one whose
payload is the active file with the new content and `lastActive: true`. -/
def debounceSave (content : String) (s : EditorState) : EditorState :=
  match activeFile s with
  | none => s
  | some f =>
      { s with pendingSave := some { f with content := content, lastActive := some true } }

/-- The `<Editor onChange>` handler: `handleEditorChange(value)` then
`if (value) debounceSave(value)` (an empty string is falsy and schedules
nothing). -/
def editorOnChange (value : Option String) (s : EditorState) : EditorState :=
  let s1 := handleEditorChange value s
  match value with
  | some v => if v = "" then s1 else debounceSave v s1
  | none => s1

/-- The debounce timer firing: `saveFile(fileToSave)` writes the payload to the
store. -/
def firePendingSave (s : EditorState) : EditorState :=
  match s.pendingSave with
  | some f => { s with store := putFile s.store f, pendingSave := none }
  | none => s

/-- `formatCode`, with the external prettier call abstracted as the function
argument `fmt : content → parser → Except error formatted`.  The parser hint is
`PRETTIER_PARSER_MAP[ext] || "babel"`.  On success the result goes through
`handleEditorChange`; on failure the catch block alerts and changes nothing. -/
def formatCode (fmt : String → String → Except String String) (s : EditorState) :
    EditorState :=
  match activeFile s with
  | none => s
  | some f =>
      match fmt f.content ((prettierParserMap (getFileExtension f.name)).getD "babel") with
      | .ok formatted => handleEditorChange (some formatted) s
      | .error _ =>
          { s with alerts := s.alerts ++ ["Error formatting code. Check console for details."] }

/-- `addNewFile(fileName)`: duplicate id → alert, no change; otherwise append
the new record to the in-memory list, make it active (remounting the editor on
its empty content), and put the record — only the record — into the store. -/
def addNewFile (fileName : String) (s : EditorState) : EditorState :=
  if s.files.any (fun f => f.id = fileName) then
    { s with alerts := s.alerts ++ ["File name already exists!"] }
  else
    let newFile := createNewFile fileName
    { s with files := s.files ++ [newFile]
             activeFileId := fileName
             editorContent := some newFile.content
             store := putFile s.store newFile }

/-- `handleTabClick(fileId)`: no-op when already active; otherwise load the
record from the store, replace the in-memory copy, make it active, record the
access in the persisted history (remove the previous occurrence, push to the
end, trim from the front to the registry size), persist the metadata, and set
the Monaco model to the loaded content.  When the store lookup misses,
`request.result` is `undefined`: the state updates and the metadata write still
happen, each in-memory record whose id matches becomes an `undefined` hole
(flagged via `corrupt`), and `file.content` then throws into the catch block. -/
def handleTabClick (fileId : String) (s : EditorState) : EditorState :=
  if fileId = s.activeFileId then s
  else
    let newHistory := trimTo s.files.length ((metaHistory s).erase fileId ++ [fileId])
    let newMeta : FileMeta :=
      { activeFileId := fileId
        history := newHistory
        fileOrder := s.files.map (·.id) }
    match getFile s.store fileId with
    | some file =>
        { s with files := s.files.map (fun f => if f.id = fileId then file else f)
                 activeFileId := fileId
                 store := putMeta s.store newMeta
                 editorContent := some file.content }
    | none =>
        { s with activeFileId := fileId
                 corrupt := s.corrupt || s.files.any (fun f => f.id = fileId)
                 store := putMeta s.store newMeta
                 alerts := s.alerts ++ ["Failed to switch tabs. Check console for details."] }

/-- `handleTabDrop(fromIndex, toIndex)`: copy `files`, splice the entry out of
`fromIndex`, splice it back in at `toIndex` (JavaScript `splice` clamps an
oversized insertion index to the end), store the new list, and persist metadata
with the new `fileOrder`, the in-memory `activeFileId` and an empty `history`.
When `fromIndex` is out of range, `splice` removes nothing and inserts
`undefined`: the state update lands the hole in the list (flagged via
`corrupt`) and `newFiles.map(f => f.id)` throws before the metadata write. -/
def handleTabDrop (fromIdx toIdx : Nat) (s : EditorState) : EditorState :=
  if h : fromIdx < s.files.length then
    let moved := s.files.get ⟨fromIdx, h⟩
    let rest := s.files.eraseIdx fromIdx
    let newFiles := rest.take toIdx ++ moved :: rest.drop toIdx
    { s with files := newFiles
             store := putMeta s.store
               { activeFileId := s.activeFileId
                 history := []
                 fileOrder := newFiles.map (·.id) } }
  else
    { s with corrupt := true }

/-- The replacement chosen by `deleteFile` for a deleted active file:
`history[history.length - 2] || history[history.length - 1] ||
updatedFiles[0].id`, where `history` is already filtered of the deleted id.
`none` only when `updatedFiles` is empty and both history reads are falsy
(there the source throws on `updatedFiles[0].id`). -/
def replacementId (history : List String) (updatedFiles : List File) : Option String :=
  jsOr (jsOr (jsGetI history ((history.length : Int) - 2))
             (jsGetI history ((history.length : Int) - 1)))
       (updatedFiles.head?.map (·.id))

/-- `deleteFile(fileId)`.  At most one file: alert, no change.  Deleting the
active file: choose the replacement from the filtered history (falling back to
the first remaining file), load it from the store, switch to it, persist
metadata with the deleted id removed and the replacement moved to the end of
the history, and delete the record.  A store miss for the replacement updates
`activeFileId` and `files`, then throws on `previousFile.content` before the
metadata write and record deletion, landing in the catch block.  Deleting an
inactive file just drops it from the list, the metadata and the store. -/
def deleteFile (fileId : String) (s : EditorState) : EditorState :=
  if s.files.length ≤ 1 then
    { s with alerts := s.alerts ++ ["You need at least one file!"] }
  else
    let history := (metaHistory s).filter (fun i => i != fileId)
    let updatedFiles := s.files.filter (fun f => f.id != fileId)
    if s.activeFileId = fileId then
      match replacementId history updatedFiles with
      | none =>
          -- `updatedFiles[0].id` throws before any state update; the catch alerts.
          { s with alerts := s.alerts ++ ["Failed to delete file"] }
      | some previousFileId =>
          match getFile s.store previousFileId with
          | some previousFile =>
              { s with activeFileId := previousFileId
                       files := updatedFiles
                       editorContent := some previousFile.content
                       store := deleteStoreFile
                         (putMeta s.store
                           { activeFileId := previousFileId
                             history := history.filter (fun i => i != previousFileId)
                               ++ [previousFileId]
                             fileOrder := updatedFiles.map (·.id) })
                         fileId }
          | none =>
              { s with activeFileId := previousFileId
                       files := updatedFiles
                       alerts := s.alerts ++ ["Failed to delete file"] }
    else
      { s with files := updatedFiles
               store := deleteStoreFile
                 (putMeta s.store
                   { activeFileId := s.activeFileId
                     history := history
                     fileOrder := updatedFiles.map (·.id) })
                 fileId }

/-- The comparison key of `loadFilesFromDB`'s sort:
`fileOrder.indexOf(file.id)`, `-1` when absent. -/
def sortKey (fileOrder : List String) (f : File) : Int :=
  match fileOrder.findIdx? (fun i => i = f.id) with
  | some n => (n : Int)
  | none => -1

/-- Stable insertion of one element into a key-sorted list (an element goes
before the first strictly larger key, after equal keys). -/
def insertSorted (key : File → Int) (f : File) : List File → List File
  | [] => [f]
  | g :: gs => if key f ≤ key g then f :: g :: gs else g :: insertSorted key f gs

/-- Stable sort by key, modelling the (stable) `Array.prototype.sort` with
comparator `aIndex - bIndex`. -/
def stableSortBy (key : File → Int) : List File → List File
  | [] => []
  | f :: fs => insertSorted key f (stableSortBy key fs)

/-- `loadFilesFromDB(db, fileOrder)`: the files of the store, sorted by their
index in `fileOrder` when `fileOrder` is non-empty. -/
def loadFilesFromDB (files : List File) (fileOrder : List String) : List File :=
  if fileOrder.isEmpty then files else stableSortBy (sortKey fileOrder) files

/-- `initializeEditor` on an opened database: load metadata and files; with
files present, adopt the metadata's `activeFileId` when it is truthy and
matches a loaded record, else the first loaded file; with an empty store, seed
the default `index.js` and write initial metadata. -/
def initializeEditor (st : Store) : EditorState :=
  let savedFiles := loadFilesFromDB st.files ((st.meta.map (·.fileOrder)).getD [])
  match savedFiles with
  | f0 :: rest =>
      let active :=
        match st.meta with
        | some m =>
            if m.activeFileId ≠ "" ∧ (f0 :: rest).any (fun f => f.id = m.activeFileId) then
              m.activeFileId
            else f0.id
        | none => f0.id
      { files := f0 :: rest
        activeFileId := active
        store := st
        pendingSave := none
        editorContent := ((f0 :: rest).find? (fun f => f.id = active)).map (·.content)
        alerts := []
        corrupt := false }
  | [] =>
      let newFile := createNewFile "index.js"
      { files := [newFile]
        activeFileId := newFile.id
        store := putMeta (putFile st newFile)
          { activeFileId := newFile.id
            history := [newFile.id]
            fileOrder := [newFile.id] }
        pendingSave := none
        editorContent := some newFile.content
        alerts := []
        corrupt := false }

/-- The create/delete action alphabet of §8's first testable property. -/
inductive FileOp where
  | create (name : String)
  | delete (fileId : String)

/-- Apply one create/delete action. -/
def applyFileOp (s : EditorState) : FileOp → EditorState
  | .create n => addNewFile n s
  | .delete i => deleteFile i s

/-- Run a sequence of create/delete actions. -/
def runFileOps (s : EditorState) (ops : List FileOp) : EditorState :=
  ops.foldl applyFileOp s

/-- §4.3's `resolveReplacementOnDelete`, written from the spec's words for
comparison with the code: the second-most-recent history entry after excluding
the deleted id, else the most-recent remaining entry, else the first remaining
id. -/
def resolveReplacementOnDelete (history : List String) (deletedId : String)
    (remainingIds : List String) : Option String :=
  let filtered := history.filter (fun i => i != deletedId)
  if 2 ≤ filtered.length then filtered[filtered.length - 2]?
  else if 1 ≤ filtered.length then filtered[filtered.length - 1]?
  else remainingIds.head?

/-! ## Concrete states for witnesses and counterexamples -/

/-- The file `a.js` as created by `createNewFile`. -/
def fileA : File := createNewFile "a.js"

/-- The file `b.js` as created by `createNewFile`. -/
def fileB : File := createNewFile "b.js"

/-- A store holding `a.js` and `b.js` with metadata reflecting the spec's
two-file scenario: history `[A, B]`, `B` active. -/
def storeAB : Store :=
  { files := [fileA, fileB]
    meta := some { activeFileId := "b.js", history := ["a.js", "b.js"], fileOrder := ["a.js", "b.js"] } }

/-- The editor session on `storeAB` with `b.js` active. -/
def stateAB : EditorState :=
  { files := [fileA, fileB]
    activeFileId := "b.js"
    store := storeAB
    pendingSave := none
    editorContent := some ""
    alerts := []
    corrupt := false }

/-- The freshly seeded single-file session (`initializeEditor` on an empty
store). -/
def stateOne : EditorState := initializeEditor { files := [], meta := none }

/-- A store whose enumeration order disagrees with `fileOrder` and whose
metadata names a nonexistent active id. -/
def storeMix : Store :=
  { files := [fileB, fileA]
    meta := some { activeFileId := "zz", history := [], fileOrder := ["a.js", "b.js"] } }

/-! ## Claims -/

/-- **C7.** Creating a file whose derived id already exists fails with the
duplicate-name alert and changes no state; otherwise the new record is
appended with empty content and the language inferred from the extension,
unknown extensions mapping to the default `"javascript"`. -/
theorem create_duplicate_rejected_else_inferred (s : EditorState) (n : String) :
    (s.files.any (fun f => f.id = n) = true →
      addNewFile n s = { s with alerts := s.alerts ++ ["File name already exists!"] })
    ∧ (s.files.any (fun f => f.id = n) = false →
        (addNewFile n s).files = s.files ++ [createNewFile n]
        ∧ (createNewFile n).content = ""
        ∧ (createNewFile n).language = (languageMap (getFileExtension n)).getD "javascript"
        ∧ (languageMap (getFileExtension n) = none →
            (createNewFile n).language = "javascript")) := by
  constructor
  · intro h
    simp only [addNewFile, h, if_true]
  · intro h
    refine ⟨?_, rfl, rfl, fun hnone => ?_⟩
    · simp only [addNewFile, h, Bool.false_eq_true, if_false]
    · simp [createNewFile, hnone]

/-- Witness for C7 on concrete inputs: `a.js` collides in `stateAB`,
`c.css` does not. -/
theorem create_duplicate_rejected_else_inferred_witness :
    addNewFile "a.js" stateAB
      = { stateAB with alerts := stateAB.alerts ++ ["File name already exists!"] }
    ∧ (addNewFile "c.css" stateAB).files = stateAB.files ++ [createNewFile "c.css"] :=
  ⟨(create_duplicate_rejected_else_inferred stateAB "a.js").1 (by decide),
   ((create_duplicate_rejected_else_inferred stateAB "c.css").2 (by decide)).1⟩

/-- **C8.** When the formatter rejects the active file's content, the
in-memory content, the store and the pending debounced write are unchanged and
the error is reported via an alert (the catch block; no crash). -/
theorem format_error_leaves_state_unchanged (s : EditorState) (f : File) (e : String)
    (fmt : String → String → Except String String)
    (ha : activeFile s = some f)
    (herr : fmt f.content ((prettierParserMap (getFileExtension f.name)).getD "babel")
      = .error e) :
    (formatCode fmt s).files = s.files
    ∧ (formatCode fmt s).store = s.store
    ∧ (formatCode fmt s).pendingSave = s.pendingSave
    ∧ (formatCode fmt s).alerts
        = s.alerts ++ ["Error formatting code. Check console for details."] := by
  simp [formatCode, ha, herr]

/-- Witness for C8: a formatter that rejects every input, applied in
`stateAB`. -/
theorem format_error_leaves_state_unchanged_witness :
    (formatCode (fun _ _ => .error "SyntaxError") stateAB).files = stateAB.files
    ∧ (formatCode (fun _ _ => .error "SyntaxError") stateAB).store = stateAB.store
    ∧ (formatCode (fun _ _ => .error "SyntaxError") stateAB).pendingSave
        = stateAB.pendingSave
    ∧ (formatCode (fun _ _ => .error "SyntaxError") stateAB).alerts
        = stateAB.alerts ++ ["Error formatting code. Check console for details."] :=
  format_error_leaves_state_unchanged stateAB fileB "SyntaxError"
    (fun _ _ => .error "SyntaxError") (by decide) rfl

/-- **C9 counterexample.** A successful format updates the in-memory record
but schedules no debounced persistence write: after formatting `stateAB` with
a formatter that appends `"!"`, the in-memory active content is `"!"` while
the debounce timer is unarmed and the store untouched — refuting the claim
that the formatted result goes through the debounced-persistence half of the
manual-edit path. -/
theorem format_success_schedules_no_write :
    (formatCode (fun t _ => .ok (t ++ "!")) stateAB).files.map (·.content) = ["", "!"]
    ∧ (formatCode (fun t _ => .ok (t ++ "!")) stateAB).pendingSave = none
    ∧ (formatCode (fun t _ => .ok (t ++ "!")) stateAB).store = stateAB.store := by
  refine ⟨?_, rfl, rfl⟩
  decide

/-- **C9 amended.** On success the formatted result is applied through
`handleEditorChange` — the in-memory half of the manual-edit path — updating
the active record's content in memory; the store, the pending debounced write,
the alerts and the visible editor content are all left as they were (no
debounced persistence write of the formatted content is scheduled). -/
theorem format_success_updates_memory_only (s : EditorState) (f : File) (out : String)
    (fmt : String → String → Except String String)
    (ha : activeFile s = some f)
    (hok : fmt f.content ((prettierParserMap (getFileExtension f.name)).getD "babel")
      = .ok out) :
    formatCode fmt s = handleEditorChange (some out) s
    ∧ (formatCode fmt s).files = s.files.map (fun g =>
        if g.id = s.activeFileId then { g with content := out } else g)
    ∧ (formatCode fmt s).pendingSave = s.pendingSave
    ∧ (formatCode fmt s).store = s.store
    ∧ (formatCode fmt s).editorContent = s.editorContent := by
  simp [formatCode, ha, hok, handleEditorChange]

/-- Witness for the amended C9 at a concrete formatter and state. -/
theorem format_success_updates_memory_only_witness :
    formatCode (fun t _ => .ok (t ++ "!")) stateAB
      = handleEditorChange (some "!") stateAB
    ∧ (formatCode (fun t _ => .ok (t ++ "!")) stateAB).pendingSave
        = stateAB.pendingSave :=
  ⟨(format_success_updates_memory_only stateAB fileB "!"
      (fun t _ => .ok (t ++ "!")) (by decide) rfl).1,
   (format_success_updates_memory_only stateAB fileB "!"
      (fun t _ => .ok (t ++ "!")) (by decide) rfl).2.2.1⟩

/-- **C5 counterexample.** Reordering does not preserve the persisted
history: `handleTabDrop 0 1` on `stateAB` rewrites the metadata with
`history: []`, though the persisted history was `["a.js", "b.js"]` — refuting
the claim that history is the same after a reorder as before it. -/
theorem reorder_resets_history :
    metaHistory stateAB = ["a.js", "b.js"]
    ∧ metaHistory (handleTabDrop 0 1 stateAB) = []
    ∧ metaHistory (handleTabDrop 0 1 stateAB) ≠ metaHistory stateAB := by
  refine ⟨rfl, rfl, ?_⟩
  decide

/-- **C5 amended.** An in-range reorder rewrites the whole persisted metadata
record: `fileOrder` becomes the new display order, `activeFileId` is set to
the in-memory active id, and `history` is reset to the empty list (rather than
being preserved). -/
theorem reorder_rewrites_metadata (s : EditorState) (i j : Nat)
    (h : i < s.files.length) :
    (handleTabDrop i j s).store.meta
      = some { activeFileId := s.activeFileId
               history := []
               fileOrder := (handleTabDrop i j s).files.map (·.id) } := by
  simp only [handleTabDrop, dif_pos h, putMeta]

/-- Witness for the amended C5 at a concrete in-range reorder. -/
theorem reorder_rewrites_metadata_witness :
    (handleTabDrop 0 1 stateAB).store.meta
      = some { activeFileId := stateAB.activeFileId
               history := []
               fileOrder := (handleTabDrop 0 1 stateAB).files.map (·.id) } :=
  reorder_rewrites_metadata stateAB 0 1 (by decide)

/-- `putFile` touches only the files collection. -/
theorem putFile_meta (st : Store) (f : File) : (putFile st f).meta = st.meta := by
  unfold putFile
  split <;> rfl

/-- Erasing at the index right after a prefix removes the element there. -/
theorem eraseIdx_append_len {α : Type} (l1 l2 : List α) (a : α) :
    (l1 ++ a :: l2).eraseIdx l1.length = l1 ++ l2 := by
  induction l1 with
  | nil => rfl
  | cons x t ih => simpa [List.eraseIdx] using ih

/-- **C4 counterexample.** Out-of-range indices are not rejected:
`handleTabDrop 0 5` on the two-file `stateAB` moves `a.js` to the end (the
oversized `toIndex` is clamped by `splice`) and persists the new order — a
state change, where the claim demands rejection with no state change. -/
theorem reorder_out_of_range_not_rejected :
    (handleTabDrop 0 5 stateAB).files ≠ stateAB.files
    ∧ (handleTabDrop 0 5 stateAB).files.map (·.id) = ["b.js", "a.js"]
    ∧ stateAB.files.length = 2 := by
  exact ⟨by decide, rfl, rfl⟩

/-- **C4 amended.** For an in-range `fromIndex`, reorder has array-splice
semantics — the element previously at `fromIndex` ends at index
`min toIndex (length - 1)` and all other elements preserve their relative
order; an out-of-range `toIndex` is not rejected but clamped to the end
(and an out-of-range `fromIndex` is not rejected either: it corrupts the
list with an `undefined` hole). -/
theorem reorder_splice_semantics (s : EditorState) (i j : Nat)
    (h : i < s.files.length) :
    (handleTabDrop i j s).files[min j (s.files.length - 1)]?
      = some (s.files.get ⟨i, h⟩)
    ∧ (handleTabDrop i j s).files.eraseIdx (min j (s.files.length - 1))
      = s.files.eraseIdx i := by
  have hrest : (s.files.eraseIdx i).length = s.files.length - 1 := by
    rw [List.length_eraseIdx]
    simp [h]
  have hmin : (List.take j (s.files.eraseIdx i)).length = min j (s.files.length - 1) := by
    simp [List.length_take, hrest]
  simp only [handleTabDrop, dif_pos h]
  constructor
  · rw [← hmin, List.getElem?_append_right (le_refl _)]
    simp
  · rw [← hmin, eraseIdx_append_len, List.take_append_drop]

/-- Witness for the amended C4 at a concrete in-range reorder. -/
theorem reorder_splice_semantics_witness :
    (handleTabDrop 0 1 stateAB).files[min 1 (stateAB.files.length - 1)]?
      = some (stateAB.files.get ⟨0, by decide⟩)
    ∧ (handleTabDrop 0 1 stateAB).files.eraseIdx (min 1 (stateAB.files.length - 1))
      = stateAB.files.eraseIdx 0 :=
  reorder_splice_semantics stateAB 0 1 (by decide)

/-- **C2 counterexample.** Creating a file does not append its id to the
persisted `fileOrder`: `addNewFile` writes only the file record, so after
creating `a.js` in the seeded single-file session the registry ids are
`["index.js", "a.js"]` while the persisted `fileOrder` is still
`["index.js"]` — not a permutation of the registry's id set. -/
theorem create_leaves_persisted_order_stale :
    (addNewFile "a.js" stateOne).files.map (·.id) = ["index.js", "a.js"]
    ∧ metaFileOrder (addNewFile "a.js" stateOne) = ["index.js"]
    ∧ ¬ ((addNewFile "a.js" stateOne).files.map (·.id)).Perm
        (metaFileOrder (addNewFile "a.js" stateOne)) := by
  exact ⟨rfl, rfl, by decide⟩

/-- **C2 amended.** Delete (both of an inactive file, and of the active file
when the replacement's store lookup succeeds) and in-range reorder leave the
persisted `fileOrder` exactly the registry's id sequence (hence a
permutation of its id set); create writes only the new file record and leaves
the persisted metadata unchanged, so the created id is missing from
`fileOrder` until a later metadata-writing operation. -/
theorem persisted_order_after_ops (s : EditorState) (n fileId : String) (i j : Nat) :
    (addNewFile n s).store.meta = s.store.meta
    ∧ (i < s.files.length →
        metaFileOrder (handleTabDrop i j s) = (handleTabDrop i j s).files.map (·.id))
    ∧ (2 ≤ s.files.length → fileId ≠ s.activeFileId →
        metaFileOrder (deleteFile fileId s) = (deleteFile fileId s).files.map (·.id))
    ∧ (2 ≤ s.files.length → s.activeFileId = fileId →
        ∀ p g,
          replacementId ((metaHistory s).filter (fun x => x != fileId))
              (s.files.filter (fun f => f.id != fileId)) = some p →
          getFile s.store p = some g →
          metaFileOrder (deleteFile fileId s) = (deleteFile fileId s).files.map (·.id)) := by
  refine ⟨?_, ?_, ?_, ?_⟩
  · unfold addNewFile
    split
    · rfl
    · exact putFile_meta s.store (createNewFile n)
  · intro h
    simp [handleTabDrop, dif_pos h, metaFileOrder, putMeta]
  · intro h2 hne
    unfold deleteFile
    rw [if_neg (by omega), if_neg (fun hEq => hne hEq.symm)]
    simp [metaFileOrder, deleteStoreFile, putMeta]
  · intro h2 ha p g hp hg
    unfold deleteFile
    rw [if_neg (by omega), if_pos ha]
    simp only [hp, hg]
    simp [metaFileOrder, deleteStoreFile, putMeta]

/-- Witness for the amended C2: create, reorder, inactive delete and active
delete, each at a concrete input in `stateAB`. -/
theorem persisted_order_after_ops_witness :
    (addNewFile "c.css" stateAB).store.meta = stateAB.store.meta
    ∧ metaFileOrder (handleTabDrop 0 1 stateAB)
        = (handleTabDrop 0 1 stateAB).files.map (·.id)
    ∧ metaFileOrder (deleteFile "a.js" stateAB)
        = (deleteFile "a.js" stateAB).files.map (·.id)
    ∧ metaFileOrder (deleteFile "b.js" stateAB)
        = (deleteFile "b.js" stateAB).files.map (·.id) :=
  ⟨(persisted_order_after_ops stateAB "c.css" "a.js" 0 1).1,
   (persisted_order_after_ops stateAB "c.css" "a.js" 0 1).2.1 (by decide),
   (persisted_order_after_ops stateAB "c.css" "a.js" 0 1).2.2.1 (by decide) (by decide),
   (persisted_order_after_ops stateAB "c.css" "b.js" 0 1).2.2.2 (by decide) (by decide)
     "a.js" fileA (by decide) (by decide)⟩

/-- A negative JavaScript index reads `undefined`. -/
theorem jsGetI_neg (l : List String) (i : Int) (h : i < 0) : jsGetI l i = none := by
  simp [jsGetI, h]

/-- `history[history.length - 2]`: in range when the list has two entries. -/
theorem jsGetI_len_sub_two (l : List String) :
    jsGetI l ((l.length : Int) - 2)
      = if 2 ≤ l.length then l[l.length - 2]? else none := by
  unfold jsGetI
  by_cases h : 2 ≤ l.length
  · rw [if_neg (by omega : ¬ ((l.length : Int) - 2 < 0)), if_pos h]
    congr 1
    omega
  · rw [if_pos (by omega), if_neg h]

/-- `history[history.length - 1]`: in range when the list is non-empty. -/
theorem jsGetI_len_sub_one (l : List String) :
    jsGetI l ((l.length : Int) - 1)
      = if 1 ≤ l.length then l[l.length - 1]? else none := by
  unfold jsGetI
  by_cases h : 1 ≤ l.length
  · rw [if_neg (by omega : ¬ ((l.length : Int) - 1 < 0)), if_pos h]
    congr 1
    omega
  · rw [if_pos (by omega), if_neg h]

/-- `undefined || b` falls through. -/
theorem jsOr_none (b : Option String) : jsOr none b = b := rfl

/-- `a || b` keeps a non-empty left string. -/
theorem jsOr_some_of_ne (a : String) (b : Option String) (h : a ≠ "") :
    jsOr (some a) b = some a := by
  simp [jsOr, h]

/-- With no more than one file per id, deletion removes at most one entry. -/
theorem length_filter_ne_of_nodup (l : List File) (x : String)
    (hnd : (l.map (·.id)).Nodup) :
    l.length - 1 ≤ (l.filter (fun f => f.id != x)).length := by
  have hcount : l.countP (fun f => f.id == x) ≤ 1 := by
    have h1 : (l.map (·.id)).count x ≤ 1 := List.nodup_iff_count_le_one.mp hnd x
    rw [List.count, List.countP_map] at h1
    exact h1
  have hsplit := List.length_eq_countP_add_countP (fun f => f.id == x) l
  have hq : l.countP (fun f => ¬ (fun f => f.id == x) f) = l.countP (fun f => f.id != x) := by
    apply List.countP_congr
    intro f _
    cases hfx : (f.id == x) <;> simp [hfx] <;> simpa using hfx
  rw [hq] at hsplit
  rw [← List.countP_eq_length_filter]
  omega

/-- The `|| … || …` chain of `deleteFile` computes exactly the spec's
three-tier `resolveReplacementOnDelete`, and yields a value whenever some
file remains, provided the (filtered) history holds no empty id (empty
strings are falsy in JavaScript). -/
theorem replacement_chain_eq (history : List String) (deletedId : String) (U : List File)
    (hne : "" ∉ history.filter (fun i => i != deletedId)) (hU : U ≠ []) :
    replacementId (history.filter (fun i => i != deletedId)) U
      = resolveReplacementOnDelete history deletedId (U.map (·.id))
    ∧ (replacementId (history.filter (fun i => i != deletedId)) U).isSome := by
  simp only [replacementId, resolveReplacementOnDelete]
  set H := history.filter (fun i => i != deletedId) with hH
  by_cases h2 : 2 ≤ H.length
  · have hlt : H.length - 2 < H.length := by omega
    have hx : H[H.length - 2]? = some H[H.length - 2] := List.getElem?_eq_getElem hlt
    have hmem : H[H.length - 2] ∈ H := List.getElem_mem hlt
    have hxe : H[H.length - 2] ≠ "" := fun hEq => hne (hEq ▸ hmem)
    rw [jsGetI_len_sub_two, if_pos h2, hx,
      jsOr_some_of_ne _ _ hxe, jsOr_some_of_ne _ _ hxe, if_pos h2]
    exact ⟨rfl, rfl⟩
  · by_cases h1 : 1 ≤ H.length
    · have hlen : H.length = 1 := by omega
      have hlt : H.length - 1 < H.length := by omega
      have hx : H[H.length - 1]? = some H[H.length - 1] := List.getElem?_eq_getElem hlt
      have hmem : H[H.length - 1] ∈ H := List.getElem_mem hlt
      have hxe : H[H.length - 1] ≠ "" := fun hEq => hne (hEq ▸ hmem)
      rw [jsGetI_neg _ _ (by omega : ((H.length : Int) - 2) < 0),
        jsGetI_len_sub_one, if_pos h1, hx, jsOr_none,
        jsOr_some_of_ne _ _ hxe, if_neg h2, if_pos h1]
      exact ⟨rfl, rfl⟩
    · have hlen : H.length = 0 := by omega
      obtain ⟨u, us, hu⟩ : ∃ u us, U = u :: us := by
        cases U with
        | nil => exact absurd rfl hU
        | cons u us => exact ⟨u, us, rfl⟩
      rw [jsGetI_neg _ _ (by omega : ((H.length : Int) - 2) < 0),
        jsGetI_neg _ _ (by omega : ((H.length : Int) - 1) < 0), if_neg h2,
        if_neg (by omega : ¬ 1 ≤ H.length), hu]
      exact ⟨rfl, rfl⟩

/-- Whatever id the replacement chain yields for a deleted active file
becomes the new `activeFileId` — both when its store lookup succeeds and on
the crash path where it misses. -/
theorem deleteFile_active_activeFileId (s : EditorState) (fileId p : String)
    (hlen : ¬ s.files.length ≤ 1) (ha : s.activeFileId = fileId)
    (hp : replacementId ((metaHistory s).filter (fun i => i != fileId))
            (s.files.filter (fun f => f.id != fileId)) = some p) :
    (deleteFile fileId s).activeFileId = p := by
  unfold deleteFile
  rw [if_neg hlen, if_pos ha]
  split
  · next heq => rw [hp] at heq; exact absurd heq (by simp)
  · next q heq =>
      rw [hp] at heq
      obtain rfl : p = q := by injection heq
      split <;> rfl

/-- **C1.** When the active file is deleted with at least two files present,
the new `activeFileId` is exactly the spec's three-tier fallback
`resolveReplacementOnDelete`: the second-most-recent entry of `history`
excluding the deleted id, else the most-recent remaining entry, else the
first id among the remaining files.  (Hypotheses: ids are unique, and the
filtered history holds no empty string — the falsy value `||` would skip.) -/
theorem delete_active_three_tier_fallback (s : EditorState) (fileId : String)
    (h2 : 2 ≤ s.files.length)
    (ha : s.activeFileId = fileId)
    (hnd : (s.files.map (·.id)).Nodup)
    (hne : "" ∉ (metaHistory s).filter (fun i => i != fileId)) :
    some ((deleteFile fileId s).activeFileId)
      = resolveReplacementOnDelete (metaHistory s) fileId
          ((s.files.filter (fun f => f.id != fileId)).map (·.id)) := by
  have hU : s.files.filter (fun f => f.id != fileId) ≠ [] := by
    have hlen := length_filter_ne_of_nodup s.files fileId hnd
    intro hEq
    rw [hEq] at hlen
    simp only [List.length_nil] at hlen
    omega
  obtain ⟨hchain, hsome⟩ := replacement_chain_eq (metaHistory s) fileId _ hne hU
  obtain ⟨p, hp⟩ := Option.isSome_iff_exists.mp hsome
  rw [deleteFile_active_activeFileId s fileId p (by omega) ha hp, ← hchain, hp]

/-- Witness for C1: the spec's own scenario — two files `a.js`, `b.js`,
history `[a.js, b.js]`, `b.js` active; deleting `b.js` makes `a.js`
active. -/
theorem delete_active_three_tier_fallback_witness :
    some ((deleteFile "b.js" stateAB).activeFileId)
      = resolveReplacementOnDelete (metaHistory stateAB) "b.js"
          ((stateAB.files.filter (fun f => f.id != "b.js")).map (·.id))
    ∧ (deleteFile "b.js" stateAB).activeFileId = "a.js"
    ∧ metaHistory stateAB = ["a.js", "b.js"]
    ∧ stateAB.activeFileId = "b.js" :=
  ⟨delete_active_three_tier_fallback stateAB "b.js" (by decide) (by decide)
      (by decide) (by decide),
   by decide, rfl, rfl⟩

/-- The standing invariant threaded through create/delete sequences: the
registry is non-empty and holds one record per id. -/
def goodState (s : EditorState) : Prop :=
  1 ≤ s.files.length ∧ (s.files.map (·.id)).Nodup

/-- `addNewFile` preserves the invariant (it only ever appends a fresh id). -/
theorem addNewFile_good (s : EditorState) (n : String) (h : goodState s) :
    goodState (addNewFile n s) := by
  obtain ⟨h1, hnd⟩ := h
  unfold addNewFile
  split
  · exact ⟨h1, hnd⟩
  · next hdup =>
      refine ⟨by simp, ?_⟩
      have hn : n ∉ s.files.map (·.id) := by
        intro hmem
        obtain ⟨f, hf, hfid⟩ := List.mem_map.mp hmem
        exact hdup (List.any_eq_true.mpr ⟨f, hf, by simp [hfid]⟩)
      show ((s.files ++ [createNewFile n]).map (·.id)).Nodup
      rw [List.map_append, List.nodup_append]
      refine ⟨hnd, by simp, ?_⟩
      intro a ha hb
      simp only [createNewFile, List.map_cons, List.map_nil, List.mem_singleton] at hb
      exact hn (hb ▸ ha)

/-- `deleteFile` preserves the invariant: with unique ids it removes at most
one file, and it refuses to touch a single-file registry. -/
theorem deleteFile_good (s : EditorState) (i : String) (h : goodState s) :
    goodState (deleteFile i s) := by
  obtain ⟨h1, hnd⟩ := h
  have hUnd : ((s.files.filter (fun f => f.id != i)).map (·.id)).Nodup :=
    hnd.sublist ((List.filter_sublist s.files).map (·.id))
  unfold deleteFile
  split
  · exact ⟨h1, hnd⟩
  · next hgt =>
      have hU1 : 1 ≤ (s.files.filter (fun f => f.id != i)).length := by
        have := length_filter_ne_of_nodup s.files i hnd
        omega
      split
      · cases hrep : replacementId ((metaHistory s).filter (fun j => j != i))
            (s.files.filter (fun f => f.id != i)) with
        | none =>
            simp only [hrep]
            exact ⟨h1, hnd⟩
        | some p =>
            cases hg : getFile s.store p with
            | some g =>
                simp only [hrep, hg]
                exact ⟨hU1, hUnd⟩
            | none =>
                simp only [hrep, hg]
                exact ⟨hU1, hUnd⟩
      · exact ⟨hU1, hUnd⟩

/-- The invariant holds after any sequence of create/delete actions. -/
theorem runFileOps_good (ops : List FileOp) (s : EditorState) (h : goodState s) :
    goodState (runFileOps s ops) := by
  induction ops generalizing s with
  | nil => exact h
  | cons op rest ih =>
      cases op with
      | create n => exact ih _ (addNewFile_good s n h)
      | delete i => exact ih _ (deleteFile_good s i h)

/-- **C3.** Starting from a non-empty registry with unique ids, no sequence
of create/delete operations empties the registry; and a delete requested with
exactly one file present is rejected with the user-visible alert and changes
nothing else — neither in-memory nor persisted state. -/
theorem registry_never_empty (s : EditorState) (ops : List FileOp) (fileId : String)
    (h1 : 1 ≤ s.files.length) (hnd : (s.files.map (·.id)).Nodup) :
    1 ≤ (runFileOps s ops).files.length
    ∧ (s.files.length = 1 →
        deleteFile fileId s
          = { s with alerts := s.alerts ++ ["You need at least one file!"] }) := by
  constructor
  · exact (runFileOps_good ops s ⟨h1, hnd⟩).1
  · intro hone
    unfold deleteFile
    rw [if_pos (by omega)]

/-- Witness for C3: a concrete create/delete sequence on the two-file state,
and the rejected deletion of the seeded session's only file. -/
theorem registry_never_empty_witness :
    1 ≤ (runFileOps stateAB [FileOp.create "c.css", FileOp.delete "c.css",
          FileOp.delete "a.js", FileOp.delete "b.js"]).files.length
    ∧ deleteFile "index.js" stateOne
        = { stateOne with alerts := stateOne.alerts ++ ["You need at least one file!"] } :=
  ⟨(registry_never_empty stateAB
      [FileOp.create "c.css", FileOp.delete "c.css", FileOp.delete "a.js",
        FileOp.delete "b.js"] "a.js" (by decide) (by decide)).1,
   (registry_never_empty stateOne [] "index.js" (by decide) (by decide)).2 (by decide)⟩

/-- The history trim never exceeds the registry size used as its cap. -/
theorem trimTo_length_le (cap : Nat) (l : List String) :
    (trimTo cap l).length ≤ cap := by
  simp only [trimTo, List.length_drop]
  omega

/-- **C6.** Switching to the already-active file is a no-op; switching to
another id whose record the store holds makes it active, shows exactly the
store's persisted content in the editor, replaces the in-memory record with
the store copy, and leaves the persisted history equal to the old history
with the id's prior occurrence removed, the id appended, and the front
trimmed so the length never exceeds the registry size. -/
theorem switch_tab_loads_from_store (s : EditorState) (fileId : String) (f : File)
    (hact : fileId ≠ s.activeFileId)
    (hget : getFile s.store fileId = some f)
    (hnd : (metaHistory s).Nodup) :
    handleTabClick s.activeFileId s = s
    ∧ (handleTabClick fileId s).activeFileId = fileId
    ∧ (handleTabClick fileId s).editorContent = some f.content
    ∧ (handleTabClick fileId s).files
        = s.files.map (fun g => if g.id = fileId then f else g)
    ∧ metaHistory (handleTabClick fileId s)
        = trimTo s.files.length
            ((metaHistory s).filter (fun i => i != fileId) ++ [fileId])
    ∧ (metaHistory (handleTabClick fileId s)).length ≤ s.files.length := by
  have hnoop : handleTabClick s.activeFileId s = s := by
    unfold handleTabClick
    rw [if_pos rfl]
  have herase := hnd.erase_eq_filter fileId
  simp only [metaHistory] at herase
  refine ⟨hnoop, ?_, ?_, ?_, ?_, ?_⟩
  · simp only [handleTabClick, if_neg hact, hget]
  · simp only [handleTabClick, if_neg hact, hget]
  · simp only [handleTabClick, if_neg hact, hget]
  · simp only [handleTabClick, if_neg hact, hget, metaHistory, putMeta,
      Option.map_some', Option.getD_some, herase]
  · simp only [handleTabClick, if_neg hact, hget, metaHistory, putMeta,
      Option.map_some', Option.getD_some]
    exact trimTo_length_le _ _

/-- Witness for C6: switching from `b.js` to `a.js` in `stateAB`. -/
theorem switch_tab_loads_from_store_witness :
    handleTabClick stateAB.activeFileId stateAB = stateAB
    ∧ (handleTabClick "a.js" stateAB).activeFileId = "a.js"
    ∧ (handleTabClick "a.js" stateAB).editorContent = some fileA.content
    ∧ (handleTabClick "a.js" stateAB).files
        = stateAB.files.map (fun g => if g.id = "a.js" then fileA else g)
    ∧ metaHistory (handleTabClick "a.js" stateAB)
        = trimTo stateAB.files.length
            ((metaHistory stateAB).filter (fun i => i != "a.js") ++ ["a.js"])
    ∧ (metaHistory (handleTabClick "a.js" stateAB)).length ≤ stateAB.files.length :=
  switch_tab_loads_from_store stateAB "a.js" fileA (by decide) (by decide) (by decide)

/-- Stable insertion only moves the new element past its predecessors. -/
theorem insertSorted_perm (key : File → Int) (f : File) (l : List File) :
    (insertSorted key f l).Perm (f :: l) := by
  induction l with
  | nil => exact List.Perm.refl _
  | cons g gs ih =>
      unfold insertSorted
      by_cases h : key f ≤ key g
      · rw [if_pos h]
      · rw [if_neg h]
        exact (List.Perm.cons g ih).trans (List.Perm.swap f g gs)

/-- The stable sort is a permutation of its input. -/
theorem stableSortBy_perm (key : File → Int) (l : List File) :
    (stableSortBy key l).Perm l := by
  induction l with
  | nil => exact List.Perm.refl _
  | cons f fs ih => exact (insertSorted_perm key f _).trans (List.Perm.cons f ih)

/-- Loading reorders but neither adds nor drops records. -/
theorem loadFilesFromDB_perm (files : List File) (ord : List String) :
    (loadFilesFromDB files ord).Perm files := by
  unfold loadFilesFromDB
  split
  · exact List.Perm.refl _
  · exact stableSortBy_perm _ _

/-- **C10.** On initialization with a non-empty store, when the persisted
metadata is absent or its `activeFileId` matches no loaded record, the first
file in the loaded order becomes active; and in every case `activeFileId`
references an existing file of the loaded registry. -/
theorem init_active_references_existing (st : Store) (f0 : File) (rest : List File)
    (hload : loadFilesFromDB st.files ((st.meta.map (·.fileOrder)).getD [])
      = f0 :: rest) :
    (initializeEditor st).files = f0 :: rest
    ∧ ((match st.meta with
        | none => True
        | some m => (f0 :: rest).all (fun f => f.id ≠ m.activeFileId)) →
        (initializeEditor st).activeFileId = f0.id)
    ∧ (initializeEditor st).files.any
        (fun f => f.id = (initializeEditor st).activeFileId) := by
  cases hm : st.meta with
  | none =>
      simp only [initializeEditor, hm, Option.map_none', Option.getD_none] at *
      rw [hload]
      dsimp only
      refine ⟨rfl, fun _ => rfl, ?_⟩
      simp
  | some m =>
      simp only [initializeEditor, hm, Option.map_some', Option.getD_some] at *
      rw [hload]
      dsimp only
      refine ⟨rfl, ?_, ?_⟩
      · intro hcond
        have hany : ¬ (m.activeFileId ≠ "" ∧ (f0 :: rest).any (fun f => f.id = m.activeFileId)) := by
          rintro ⟨-, hany⟩
          obtain ⟨f, hf, hfid⟩ := List.any_eq_true.mp hany
          have := List.all_eq_true.mp hcond f hf
          simp only [decide_eq_true_eq] at this hfid
          exact this hfid
        rw [if_neg hany]
      · by_cases hcond : m.activeFileId ≠ "" ∧ (f0 :: rest).any (fun f => f.id = m.activeFileId)
        · rw [if_pos hcond]
          exact hcond.2
        · rw [if_neg hcond]
          simp

/-- Witness for C10: a store whose metadata names the nonexistent id `zz`;
the loaded order (sorted by `fileOrder`) starts with `a.js`, which becomes
active. -/
theorem init_active_references_existing_witness :
    (initializeEditor storeMix).files = fileA :: [fileB]
    ∧ (initializeEditor storeMix).activeFileId = fileA.id
    ∧ (initializeEditor storeMix).files.any
        (fun f => f.id = (initializeEditor storeMix).activeFileId) :=
  have h := init_active_references_existing storeMix fileA [fileB] (by decide)
  ⟨h.1, h.2.1 (by dsimp only [storeMix]; decide), h.2.2⟩

end CodeEditor
